import Mathlib

/-!
# Verification of the wallet ledger (src/src/wallet_backend/src/lib.rs)

Shallow embedding of the Rust canister. The ledger is a `HashMap<String, Account>`
plus a `u64` total supply; we model the map as an association list (the canister's
`HashMap` has unique keys and order-irrelevant iteration; every operation touches at
most the first entry found for a key, which is what `lookupAcc`/`updateAcc` do).

`u64` is modeled as `Nat` reduced modulo `2^64` at every addition, matching the
wrapping semantics of release-profile Rust (the default build profile for canisters);
the subtraction in `transfer` is guarded by the insufficient-balance check and never
wraps. Transfer errors are the exact `String` values the source returns.

Each mutating entry point loads the persisted ledger, mutates a copy, and saves it
only on success; `applyOp` is that store-level step function, so on an error return
the persisted state is the unchanged previous ledger.
-/

/-- `2^64`, the modulus of `u64` arithmetic. -/
def U64LIMIT : Nat := 18446744073709551616

/-- `struct Account { id: String, balance: u64 }` (lib.rs lines 8-11). -/
structure Account where
  id : String
  balance : Nat
deriving DecidableEq, Repr

/-- `struct Ledger { accounts: HashMap<String, Account>, total_supply: u64 }`
(lib.rs lines 15-18), with the map as an association list. -/
structure Ledger where
  accounts : List (String × Account)
  total_supply : Nat
deriving DecidableEq, Repr

/-- `ledger.accounts.get(&key)` / `get_mut` / `entry` lookup: first entry stored
under `key`. -/
def lookupAcc : List (String × Account) → String → Option Account
  | [], _ => none
  | p :: rest, key => if p.1 = key then some p.2 else lookupAcc rest key

/-- In-place mutation through `get_mut`/`entry`: replace the account stored under
`key` (a key the map holds at most once) by `a`; no entry is added or removed. -/
def updateAcc : List (String × Account) → String → Account → List (String × Account)
  | [], _, _ => []
  | p :: rest, key, a => if p.1 = key then (p.1, a) :: rest else p :: updateAcc rest key a

/-- Sum of the balances of all stored accounts. -/
def sumBal : List (String × Account) → Nat
  | [] => 0
  | p :: rest => p.2.balance + sumBal rest

/-- Balance stored under `key`, `0` when absent: the list-level reading that
`balance_of` performs on the ledger's account map. -/
def balAt (accs : List (String × Account)) (key : String) : Nat :=
  match lookupAcc accs key with
  | none => 0
  | some account => account.balance

/-- `init` (lib.rs lines 22-26): saves `Ledger::default()`, the empty ledger. -/
def Ledger.init : Ledger := ⟨[], 0⟩

/-- The credit pattern shared by `mint` and `transfer`:
`entry(key).or_insert(Account { id: key, balance: 0 })` followed by
`account.balance += amount` (a wrapping `u64` add). -/
def creditAcc (accs : List (String × Account)) (key : String) (amount : Nat) :
    List (String × Account) :=
  match lookupAcc accs key with
  | some account =>
      updateAcc accs key { account with balance := (account.balance + amount) % U64LIMIT }
  | none => accs ++ [(key, { id := key, balance := (0 + amount) % U64LIMIT })]

/-- `mint` (lib.rs lines 40-50): credit `account_id`,
then `ledger.total_supply += amount` (wrapping `u64` add). -/
def mint (l : Ledger) (account_id : String) (amount : Nat) : Ledger :=
  { accounts := creditAcc l.accounts account_id amount
    total_supply := (l.total_supply + amount) % U64LIMIT }

/-- `transfer` (lib.rs lines 54-78): fail `"Sender account not found"` when `from`
is absent; fail `"Insufficient balance"` when `from_account.balance < amount`;
otherwise debit `from` (guarded subtraction), then `entry(to).or_insert(balance 0)`
and credit `to` (wrapping add), leaving `total_supply` untouched. -/
def transfer (l : Ledger) (from_ to_ : String) (amount : Nat) : Except String Ledger :=
  match lookupAcc l.accounts from_ with
  | none => .error "Sender account not found"
  | some from_account =>
    if from_account.balance < amount then
      .error "Insufficient balance"
    else
      .ok { accounts :=
              creditAcc
                (updateAcc l.accounts from_
                  { from_account with balance := from_account.balance - amount })
                to_ amount
            total_supply := l.total_supply }

/-- `balance_of` (lib.rs lines 82-86): `map_or(0, |account| account.balance)`. -/
def balance_of (l : Ledger) (account_id : String) : Nat :=
  match lookupAcc l.accounts account_id with
  | none => 0
  | some account => account.balance

/-- `total_supply` (lib.rs lines 89-93). -/
def total_supply (l : Ledger) : Nat := l.total_supply

/-- The two mutating entry points of the canister. -/
inductive Op where
  | mint (account_id : String) (amount : Nat)
  | transfer (from_ to_ : String) (amount : Nat)
deriving DecidableEq, Repr

/-- Store-level step: load the persisted ledger, run the entry point, and persist the
result; a failed `transfer` returns before `save_ledger`, so the persisted state stays
the previous ledger. -/
def applyOp (l : Ledger) : Op → Ledger
  | .mint a n => mint l a n
  | .transfer f t n =>
    match transfer l f t n with
    | .ok l2 => l2
    | .error _ => l

/-- The persisted state after `init` followed by a sequence of mutating calls. -/
def run (ops : List Op) : Ledger := ops.foldl applyOp Ledger.init

/-- Every stored balance and the supply fit in a `u64`. -/
def WF64 (l : Ledger) : Prop :=
  (∀ p ∈ l.accounts, p.2.balance < U64LIMIT) ∧ l.total_supply < U64LIMIT

/-- Supply invariant as the wrapping arithmetic actually maintains it:
the `u64` supply is the sum of all balances reduced modulo `2^64`. -/
def SupplyInv (l : Ledger) : Prop := l.total_supply = sumBal l.accounts % U64LIMIT

deriving instance DecidableEq for Except

-- sanity checks on the spec's scenario (§8)
example : total_supply (run [Op.mint "alice" 100, Op.mint "bob" 50]) = 150 := by decide
example : balance_of (run [Op.mint "alice" 100, Op.mint "bob" 50]) "alice" = 100 := by decide
example :
    balance_of (run [Op.mint "alice" 100, Op.mint "bob" 50, Op.transfer "alice" "bob" 30]) "bob"
      = 80 := by decide
example :
    transfer (run [Op.mint "alice" 100, Op.mint "bob" 50, Op.transfer "alice" "bob" 30])
      "alice" "carol" 1000 = .error "Insufficient balance" := by decide
example : transfer (run [Op.mint "alice" 100]) "dave" "bob" 1
    = .error "Sender account not found" := by decide

/-! ## Map lemmas -/

theorem lookupAcc_updateAcc_self (accs : List (String × Account)) (key : String) (a : Account) :
    lookupAcc (updateAcc accs key a) key = (lookupAcc accs key).map fun _ => a := by
  induction accs with
  | nil => rfl
  | cons p rest ih => by_cases hp : p.1 = key <;> simp [updateAcc, lookupAcc, hp, ih]

theorem lookupAcc_updateAcc_ne (accs : List (String × Account)) (key : String) (a : Account)
    (k : String) (hk : k ≠ key) :
    lookupAcc (updateAcc accs key a) k = lookupAcc accs k := by
  induction accs with
  | nil => rfl
  | cons p rest ih =>
    by_cases hp : p.1 = key
    · have hpk : p.1 ≠ k := fun hc => hk (hc ▸ hp)
      have hkk : key ≠ k := fun hc => hk hc.symm
      simp [updateAcc, lookupAcc, hp, hpk, hkk]
    · simp only [updateAcc, hp, if_false, lookupAcc]
      by_cases hpk : p.1 = k <;> simp [hpk, ih]

theorem lookupAcc_append (accs ys : List (String × Account)) (k : String) :
    lookupAcc (accs ++ ys) k =
      match lookupAcc accs k with
      | some a => some a
      | none => lookupAcc ys k := by
  induction accs with
  | nil => simp [lookupAcc]
  | cons p rest ih =>
    by_cases hp : p.1 = k <;> simp [lookupAcc, hp, ih]

theorem lookupAcc_some_mem (accs : List (String × Account)) (key : String) (acc : Account)
    (h : lookupAcc accs key = some acc) : (key, acc) ∈ accs := by
  induction accs with
  | nil => simp [lookupAcc] at h
  | cons p rest ih =>
    obtain ⟨p1, p2⟩ := p
    by_cases hp : p1 = key
    · simp [lookupAcc, hp] at h
      subst hp
      subst h
      exact List.mem_cons_self _ _
    · simp [lookupAcc, hp] at h
      exact List.mem_cons_of_mem _ (ih h)

theorem mem_updateAcc (accs : List (String × Account)) (key : String) (a : Account)
    (q : String × Account) (h : q ∈ updateAcc accs key a) : q ∈ accs ∨ q.2 = a := by
  induction accs with
  | nil => simp [updateAcc] at h
  | cons p rest ih =>
    by_cases hp : p.1 = key
    · simp only [updateAcc, hp, if_true] at h
      rcases List.mem_cons.mp h with h2 | h2
      · right; rw [h2]
      · left; exact List.mem_cons_of_mem _ h2
    · simp only [updateAcc, hp, if_false] at h
      rcases List.mem_cons.mp h with h2 | h2
      · left; exact h2 ▸ List.mem_cons_self _ _
      · rcases ih h2 with h3 | h3
        · left; exact List.mem_cons_of_mem _ h3
        · right; exact h3

theorem sumBal_append (accs ys : List (String × Account)) :
    sumBal (accs ++ ys) = sumBal accs + sumBal ys := by
  induction accs with
  | nil => simp [sumBal]
  | cons p rest ih => simp [sumBal, ih, Nat.add_assoc]

theorem sumBal_updateAcc (accs : List (String × Account)) (key : String) (acc a : Account)
    (h : lookupAcc accs key = some acc) :
    sumBal (updateAcc accs key a) + acc.balance = sumBal accs + a.balance := by
  induction accs with
  | nil => simp [lookupAcc] at h
  | cons p rest ih =>
    by_cases hp : p.1 = key
    · simp [lookupAcc, hp] at h
      simp [updateAcc, hp, sumBal, h]
      omega
    · simp [lookupAcc, hp] at h
      simp only [updateAcc, hp, if_false, sumBal]
      have := ih h
      omega

theorem balAt_le_sumBal (accs : List (String × Account)) (key : String) :
    balAt accs key ≤ sumBal accs := by
  induction accs with
  | nil => simp [balAt, lookupAcc]
  | cons p rest ih =>
    by_cases hp : p.1 = key
    · simp only [balAt, lookupAcc, hp, if_true, sumBal]
      exact Nat.le_add_right _ _
    · simp only [balAt, lookupAcc, hp, if_false, sumBal]
      exact le_trans (by simpa [balAt] using ih) (Nat.le_add_left _ _)

/-! ## Credit lemmas -/

theorem lookupAcc_creditAcc_ne (accs : List (String × Account)) (key : String) (n : Nat)
    (k : String) (hk : k ≠ key) :
    lookupAcc (creditAcc accs key n) k = lookupAcc accs k := by
  unfold creditAcc
  cases h : lookupAcc accs key with
  | some a => exact lookupAcc_updateAcc_ne accs key _ k hk
  | none =>
    rw [lookupAcc_append]
    have hkk : key ≠ k := fun hc => hk hc.symm
    cases h2 : lookupAcc accs k <;> simp [lookupAcc, hkk]

theorem lookupAcc_creditAcc_isSome (accs : List (String × Account)) (key : String) (n : Nat) :
    (lookupAcc (creditAcc accs key n) key).isSome := by
  unfold creditAcc
  cases h : lookupAcc accs key with
  | some a => rw [lookupAcc_updateAcc_self, h]; rfl
  | none => rw [lookupAcc_append, h]; simp [lookupAcc]

theorem balAt_creditAcc_self (accs : List (String × Account)) (key : String) (n : Nat) :
    balAt (creditAcc accs key n) key = (balAt accs key + n) % U64LIMIT := by
  unfold creditAcc balAt
  cases h : lookupAcc accs key with
  | some a => rw [lookupAcc_updateAcc_self, h]; rfl
  | none => rw [lookupAcc_append, h]; simp [lookupAcc]

theorem sumBal_creditAcc (accs : List (String × Account)) (key : String) (n : Nat) :
    sumBal (creditAcc accs key n) + balAt accs key
      = sumBal accs + (balAt accs key + n) % U64LIMIT := by
  unfold creditAcc balAt
  cases h : lookupAcc accs key with
  | some a => simpa using sumBal_updateAcc accs key a _ h
  | none => simp [sumBal_append, sumBal]

theorem mem_creditAcc (accs : List (String × Account)) (key : String) (n : Nat)
    (q : String × Account) (h : q ∈ creditAcc accs key n) :
    q ∈ accs ∨ q.2.balance < U64LIMIT := by
  have hpos : 0 < U64LIMIT := by unfold U64LIMIT; omega
  unfold creditAcc at h
  cases h2 : lookupAcc accs key with
  | some a =>
    rw [h2] at h
    rcases mem_updateAcc _ _ _ _ h with h3 | h3
    · exact Or.inl h3
    · right; rw [h3]; exact Nat.mod_lt _ hpos
  | none =>
    rw [h2] at h
    rcases List.mem_append.mp h with h3 | h3
    · exact Or.inl h3
    · right
      rw [List.mem_singleton.mp h3]
      exact Nat.mod_lt _ hpos

/-! ## Invariant preservation -/

theorem supplyInv_mint (l : Ledger) (a : String) (n : Nat) (h : SupplyInv l) :
    SupplyInv (mint l a n) := by
  unfold SupplyInv mint at *
  have h1 := sumBal_creditAcc l.accounts a n
  have h2 := balAt_le_sumBal l.accounts a
  unfold U64LIMIT at *
  simp only at *
  omega

theorem transfer_ok_elim (l : Ledger) (f t : String) (n : Nat) (l2 : Ledger)
    (h : transfer l f t n = Except.ok l2) :
    ∃ fa, lookupAcc l.accounts f = some fa ∧ n ≤ fa.balance ∧
      l2.accounts
        = creditAcc (updateAcc l.accounts f { fa with balance := fa.balance - n }) t n ∧
      l2.total_supply = l.total_supply := by
  unfold transfer at h
  split at h
  · exact absurd h (by simp)
  · rename_i fa hf
    split at h
    · exact absurd h (by simp)
    · rename_i hn
      have h2 := Except.ok.inj h
      exact ⟨fa, hf, Nat.le_of_not_lt hn, by rw [← h2], by rw [← h2]⟩

theorem transfer_ok_intro (l : Ledger) (f t : String) (n : Nat) (fa : Account)
    (hf : lookupAcc l.accounts f = some fa) (hn : n ≤ fa.balance) :
    transfer l f t n
      = Except.ok
          ⟨creditAcc (updateAcc l.accounts f { fa with balance := fa.balance - n }) t n,
            l.total_supply⟩ := by
  simp only [transfer, hf]
  rw [if_neg (Nat.not_lt.mpr hn)]

theorem supplyInv_transfer (l : Ledger) (f t : String) (n : Nat) (l2 : Ledger)
    (h : transfer l f t n = Except.ok l2) (hinv : SupplyInv l) : SupplyInv l2 := by
  obtain ⟨fa, hf, hn, hacc, hts⟩ := transfer_ok_elim l f t n l2 h
  unfold SupplyInv at *
  rw [hts, hacc]
  have hfb : balAt l.accounts f = fa.balance := by unfold balAt; rw [hf]
  have h1 := sumBal_updateAcc l.accounts f fa { fa with balance := fa.balance - n } hf
  have h2 : fa.balance ≤ sumBal l.accounts := hfb ▸ balAt_le_sumBal l.accounts f
  have h3 := sumBal_creditAcc
    (updateAcc l.accounts f { fa with balance := fa.balance - n }) t n
  have h4 := balAt_le_sumBal (updateAcc l.accounts f { fa with balance := fa.balance - n }) t
  simp only at h1 h3
  unfold U64LIMIT at *
  omega

theorem foldl_preserved {P : Ledger → Prop} (hstep : ∀ l op, P l → P (applyOp l op)) :
    ∀ (ops : List Op) (l : Ledger), P l → P (List.foldl applyOp l ops)
  | [], _, h => h
  | op :: ops, l, h => foldl_preserved hstep ops _ (hstep l op h)

theorem supplyInv_applyOp (l : Ledger) (op : Op) (h : SupplyInv l) : SupplyInv (applyOp l op) := by
  cases op with
  | mint a n => exact supplyInv_mint l a n h
  | transfer f t n =>
    cases htr : transfer l f t n with
    | ok l2 => simpa [applyOp, htr] using supplyInv_transfer l f t n l2 htr h
    | error e => simpa [applyOp, htr] using h

theorem supplyInv_run (ops : List Op) : SupplyInv (run ops) :=
  foldl_preserved supplyInv_applyOp ops Ledger.init rfl

theorem wf64_mint (l : Ledger) (a : String) (n : Nat) (h : WF64 l) : WF64 (mint l a n) := by
  obtain ⟨hb, hs⟩ := h
  refine ⟨?_, Nat.mod_lt _ (by unfold U64LIMIT; omega)⟩
  intro p hp
  rcases mem_creditAcc l.accounts a n p hp with h2 | h2
  · exact hb p h2
  · exact h2

theorem wf64_transfer (l : Ledger) (f t : String) (n : Nat) (l2 : Ledger)
    (h : transfer l f t n = Except.ok l2) (hwf : WF64 l) : WF64 l2 := by
  obtain ⟨fa, hf, hn, hacc, hts⟩ := transfer_ok_elim l f t n l2 h
  obtain ⟨hb, hs⟩ := hwf
  refine ⟨?_, hts ▸ hs⟩
  intro p hp
  rw [hacc] at hp
  rcases mem_creditAcc _ t n p hp with h2 | h2
  · rcases mem_updateAcc _ f _ p h2 with h3 | h3
    · exact hb p h3
    · have hfb : fa.balance < U64LIMIT := hb (f, fa) (lookupAcc_some_mem l.accounts f fa hf)
      rw [h3]
      exact Nat.lt_of_le_of_lt (Nat.sub_le _ _) hfb
  · exact h2

theorem wf64_applyOp (l : Ledger) (op : Op) (h : WF64 l) : WF64 (applyOp l op) := by
  cases op with
  | mint a n => exact wf64_mint l a n h
  | transfer f t n =>
    cases htr : transfer l f t n with
    | ok l2 => simpa [applyOp, htr] using wf64_transfer l f t n l2 htr h
    | error e => simpa [applyOp, htr] using h

theorem wf64_run (ops : List Op) : WF64 (run ops) :=
  foldl_preserved wf64_applyOp ops Ledger.init ⟨by decide, by decide⟩

theorem transfer_ok_iff (l : Ledger) (f t : String) (n : Nat) :
    (∃ l2, transfer l f t n = Except.ok l2) ↔
      ∃ acc, lookupAcc l.accounts f = some acc ∧ n ≤ acc.balance := by
  constructor
  · rintro ⟨l2, h⟩
    obtain ⟨fa, hf, hn, _, _⟩ := transfer_ok_elim l f t n l2 h
    exact ⟨fa, hf, hn⟩
  · rintro ⟨fa, hf, hn⟩
    exact ⟨_, transfer_ok_intro l f t n fa hf hn⟩

/-! ## Claims -/

/-- C1 (counterexample): the claimed invariant `total_supply = sum of all balances`
fails on a reachable state: after `mint("a", 2^63)` and `mint("b", 2^63)` the wrapping
`u64` supply is `0` while the balances sum to `2^64`. -/
theorem supply_eq_sum_counterexample :
    total_supply (run [Op.mint "a" 9223372036854775808, Op.mint "b" 9223372036854775808])
      ≠ sumBal (run [Op.mint "a" 9223372036854775808,
          Op.mint "b" 9223372036854775808]).accounts := by
  decide

/-- C1 (amended): starting from the empty ledger produced by `init`, every state
reachable by any sequence of `mint` and `transfer` operations satisfies
`total_supply = (sum of the balances of all stored accounts) mod 2^64`; the exact
equality of the claim holds whenever the sum has not overflowed `u64`. -/
theorem supply_invariant_mod (ops : List Op) :
    total_supply (run ops) = sumBal (run ops).accounts % U64LIMIT :=
  supplyInv_run ops

/-- C2: `transfer` fails with the account-not-found error exactly when `from` has no
stored account (this holds for every amount, including `0`, and takes precedence over
the balance check); it fails with the insufficient-balance error exactly when `from`
exists with balance strictly below the amount; it succeeds in every other case; and
those two strings are the only error results. -/
theorem transfer_error_characterization (l : Ledger) (f t : String) (n : Nat) :
    (transfer l f t n = Except.error "Sender account not found" ↔
      lookupAcc l.accounts f = none) ∧
    (transfer l f t n = Except.error "Insufficient balance" ↔
      ∃ acc, lookupAcc l.accounts f = some acc ∧ acc.balance < n) ∧
    ((∃ l2, transfer l f t n = Except.ok l2) ↔
      ∃ acc, lookupAcc l.accounts f = some acc ∧ n ≤ acc.balance) ∧
    ∀ e, transfer l f t n = Except.error e →
      e = "Sender account not found" ∨ e = "Insufficient balance" := by
  cases hf : lookupAcc l.accounts f with
  | none => simp [transfer, hf]
  | some fa =>
    by_cases hn : fa.balance < n
    all_goals simp [transfer, hn, hf]
    all_goals omega

/-- C2 (witness): the characterization instantiated on a concrete one-account
ledger. -/
theorem transfer_error_characterization_witness :
    (transfer ⟨[("a", ⟨"a", 5⟩)], 5⟩ "d" "b" 1 = Except.error "Sender account not found" ↔
      lookupAcc (⟨[("a", ⟨"a", 5⟩)], 5⟩ : Ledger).accounts "d" = none) ∧
    (transfer ⟨[("a", ⟨"a", 5⟩)], 5⟩ "d" "b" 1 = Except.error "Insufficient balance" ↔
      ∃ acc, lookupAcc (⟨[("a", ⟨"a", 5⟩)], 5⟩ : Ledger).accounts "d" = some acc ∧
        acc.balance < 1) ∧
    ((∃ l2, transfer ⟨[("a", ⟨"a", 5⟩)], 5⟩ "d" "b" 1 = Except.ok l2) ↔
      ∃ acc, lookupAcc (⟨[("a", ⟨"a", 5⟩)], 5⟩ : Ledger).accounts "d" = some acc ∧
        1 ≤ acc.balance) ∧
    ∀ e, transfer ⟨[("a", ⟨"a", 5⟩)], 5⟩ "d" "b" 1 = Except.error e →
      e = "Sender account not found" ∨ e = "Insufficient balance" :=
  transfer_error_characterization ⟨[("a", ⟨"a", 5⟩)], 5⟩ "d" "b" 1

/-- C3 (counterexample): a successful transfer into an account holding `2^64 - 1`
wraps the recipient's balance instead of increasing it by the amount. -/
theorem transfer_exact_credit_counterexample :
    transfer (run [Op.mint "b" 18446744073709551615, Op.mint "a" 1]) "a" "b" 1
        = Except.ok ⟨[("b", ⟨"b", 0⟩), ("a", ⟨"a", 0⟩)], 0⟩ ∧
    ("a" : String) ≠ "b" ∧
    balance_of (⟨[("b", ⟨"b", 0⟩), ("a", ⟨"a", 0⟩)], 0⟩ : Ledger) "b"
        ≠ balance_of (run [Op.mint "b" 18446744073709551615, Op.mint "a" 1]) "b" + 1 := by
  exact ⟨by decide, by decide, by decide⟩

/-- C3 (amended): for every successful `transfer(from, to, amount)` with
`from ≠ to`, the sender had at least `amount`, the sender's balance decreases by
exactly `amount`, the recipient's balance becomes its previous value plus `amount`
reduced modulo `2^64` (`to` being created at balance `0` first when absent), and
`total_supply` is unchanged; the recipient's increase is exact whenever it does not
overflow `u64`. -/
theorem transfer_ok_effect (l : Ledger) (f t : String) (n : Nat) (l2 : Ledger)
    (hft : f ≠ t) (h : transfer l f t n = Except.ok l2) :
    n ≤ balance_of l f ∧
    balance_of l2 f + n = balance_of l f ∧
    balance_of l2 t = (balance_of l t + n) % U64LIMIT ∧
    total_supply l2 = total_supply l := by
  obtain ⟨fa, hf, hn, hacc, hts⟩ := transfer_ok_elim l f t n l2 h
  have hbf : balance_of l f = fa.balance := by unfold balance_of; rw [hf]
  have hbof : balance_of l2 f = fa.balance - n := by
    unfold balance_of
    rw [hacc, lookupAcc_creditAcc_ne _ t n f hft, lookupAcc_updateAcc_self, hf]
    rfl
  have hbot : balance_of l2 t = (balance_of l t + n) % U64LIMIT := by
    have h1 : balance_of l2 t = balAt l2.accounts t := rfl
    have h2 : balance_of l t = balAt l.accounts t := rfl
    rw [h1, h2, hacc, balAt_creditAcc_self]
    congr 1
    unfold balAt
    rw [lookupAcc_updateAcc_ne _ f _ t fun hc => hft hc.symm]
  refine ⟨by rw [hbf]; exact hn, by rw [hbof, hbf]; omega, hbot, ?_⟩
  unfold total_supply
  rw [hts]

/-- C3 (witness): transferring 3 from a 5-token account to a fresh account. -/
theorem transfer_ok_effect_witness :
    3 ≤ balance_of ⟨[("a", ⟨"a", 5⟩)], 5⟩ "a" ∧
    balance_of ⟨[("a", ⟨"a", 2⟩), ("b", ⟨"b", 3⟩)], 5⟩ "a" + 3
      = balance_of ⟨[("a", ⟨"a", 5⟩)], 5⟩ "a" ∧
    balance_of ⟨[("a", ⟨"a", 2⟩), ("b", ⟨"b", 3⟩)], 5⟩ "b"
      = (balance_of ⟨[("a", ⟨"a", 5⟩)], 5⟩ "b" + 3) % U64LIMIT ∧
    total_supply (⟨[("a", ⟨"a", 2⟩), ("b", ⟨"b", 3⟩)], 5⟩ : Ledger)
      = total_supply ⟨[("a", ⟨"a", 5⟩)], 5⟩ :=
  transfer_ok_effect ⟨[("a", ⟨"a", 5⟩)], 5⟩ "a" "b" 3 ⟨[("a", ⟨"a", 2⟩), ("b", ⟨"b", 3⟩)], 5⟩
    (by decide) (by decide)

/-- C4: whenever `transfer` returns an error, the persisted state after the call is
the unchanged previous ledger (the function returns before `save_ledger`), so every
`balance_of` and `total_supply` observation is unchanged. -/
theorem transfer_error_atomic (l : Ledger) (f t : String) (n : Nat) (e : String)
    (h : transfer l f t n = Except.error e) :
    applyOp l (Op.transfer f t n) = l ∧
    (∀ k, balance_of (applyOp l (Op.transfer f t n)) k = balance_of l k) ∧
    total_supply (applyOp l (Op.transfer f t n)) = total_supply l := by
  have heq : applyOp l (Op.transfer f t n) = l := by simp [applyOp, h]
  exact ⟨heq, fun k => by rw [heq], by rw [heq]⟩

/-- C4 (witness): a transfer from an unknown sender on the empty ledger leaves the
persisted state untouched. -/
theorem transfer_error_atomic_witness :
    applyOp Ledger.init (Op.transfer "a" "b" 1) = Ledger.init ∧
    (∀ k, balance_of (applyOp Ledger.init (Op.transfer "a" "b" 1)) k
      = balance_of Ledger.init k) ∧
    total_supply (applyOp Ledger.init (Op.transfer "a" "b" 1))
      = total_supply Ledger.init :=
  transfer_error_atomic Ledger.init "a" "b" 1 "Sender account not found" rfl

/-- C5 (counterexample): minting `1` into an account already holding `2^64 - 1`
wraps the balance to `0` instead of increasing it by `1`. -/
theorem mint_exact_increase_counterexample :
    balance_of (mint (mint Ledger.init "a" 18446744073709551615) "a" 1) "a"
      ≠ balance_of (mint Ledger.init "a" 18446744073709551615) "a" + 1 := by
  decide

/-- C5 (amended): for every ledger state, account id and amount `n`,
`mint(account_id, n)` (creating the account at balance `0` when absent) sets the
account's balance to its previous value plus `n` reduced modulo `2^64`, and does the
same to `total_supply`; both increases are exactly `n` whenever they do not overflow
`u64`. -/
theorem mint_effect_mod (l : Ledger) (a : String) (n : Nat) :
    balance_of (mint l a n) a = (balance_of l a + n) % U64LIMIT ∧
    total_supply (mint l a n) = (total_supply l + n) % U64LIMIT := by
  constructor
  · have h1 : balance_of (mint l a n) a = balAt (creditAcc l.accounts a n) a := rfl
    have h2 : balance_of l a = balAt l.accounts a := rfl
    rw [h1, h2, balAt_creditAcc_self]
  · rfl

/-- C6: `mint` has no failure path: on every reachable ledger state and for every
account id and `u64` amount, the step semantics accepts the mint unconditionally
(there is no error branch), and the wrapping additions keep every stored balance and
the total supply representable in `u64`, so neither addition can fail. -/
theorem mint_no_failure (ops : List Op) (a : String) (n : Nat) :
    applyOp (run ops) (Op.mint a n) = mint (run ops) a n ∧ WF64 (mint (run ops) a n) :=
  ⟨rfl, wf64_mint _ a n (wf64_run ops)⟩

/-- C7: a self-transfer `transfer(a, a, n)` succeeds exactly when `a` has a stored
account with balance at least `n`, and on success the sequential debit and credit of
the same record cancel: every account balance and the total supply are unchanged. -/
theorem self_transfer_noop (l : Ledger) (a : String) (n : Nat) (hwf : WF64 l) :
    ((∃ l2, transfer l a a n = Except.ok l2) ↔
      ∃ acc, lookupAcc l.accounts a = some acc ∧ n ≤ acc.balance) ∧
    ∀ l2, transfer l a a n = Except.ok l2 →
      (∀ k, balance_of l2 k = balance_of l k) ∧ total_supply l2 = total_supply l := by
  refine ⟨transfer_ok_iff l a a n, ?_⟩
  intro l2 h
  obtain ⟨fa, hf, hn, hacc, hts⟩ := transfer_ok_elim l a a n l2 h
  have hfb : fa.balance < U64LIMIT := hwf.1 (a, fa) (lookupAcc_some_mem l.accounts a fa hf)
  refine ⟨?_, by unfold total_supply; rw [hts]⟩
  intro k
  by_cases hk : k = a
  · subst hk
    have h1 : balance_of l2 k = balAt l2.accounts k := rfl
    have h2 : balance_of l k = balAt l.accounts k := rfl
    rw [h1, h2, hacc, balAt_creditAcc_self]
    have h3 : balAt (updateAcc l.accounts k { fa with balance := fa.balance - n }) k
        = fa.balance - n := by
      unfold balAt
      rw [lookupAcc_updateAcc_self, hf]
      rfl
    have h4 : balAt l.accounts k = fa.balance := by unfold balAt; rw [hf]
    rw [h3, h4, Nat.sub_add_cancel hn, Nat.mod_eq_of_lt hfb]
  · unfold balance_of
    rw [hacc, lookupAcc_creditAcc_ne _ a n k hk, lookupAcc_updateAcc_ne _ a _ k hk]

/-- C7 (witness): a self-transfer of 3 on an account holding 5. -/
theorem self_transfer_noop_witness :
    ((∃ l2, transfer ⟨[("a", ⟨"a", 5⟩)], 5⟩ "a" "a" 3 = Except.ok l2) ↔
      ∃ acc, lookupAcc (⟨[("a", ⟨"a", 5⟩)], 5⟩ : Ledger).accounts "a" = some acc ∧
        3 ≤ acc.balance) ∧
    ∀ l2, transfer ⟨[("a", ⟨"a", 5⟩)], 5⟩ "a" "a" 3 = Except.ok l2 →
      (∀ k, balance_of l2 k = balance_of ⟨[("a", ⟨"a", 5⟩)], 5⟩ k) ∧
      total_supply l2 = total_supply ⟨[("a", ⟨"a", 5⟩)], 5⟩ :=
  self_transfer_noop ⟨[("a", ⟨"a", 5⟩)], 5⟩ "a" 3 (by unfold WF64; exact ⟨by decide, by decide⟩)

/-- C8: `balance_of` is a pure query (its type takes and returns no store); it
returns `0` when no account is stored under the id and the stored balance otherwise,
so absence is never an error. -/
theorem balance_of_characterization (l : Ledger) (k : String) :
    (lookupAcc l.accounts k = none ∧ balance_of l k = 0) ∨
    (∃ acc, lookupAcc l.accounts k = some acc ∧ balance_of l k = acc.balance) := by
  cases h : lookupAcc l.accounts k with
  | none => exact Or.inl ⟨rfl, by unfold balance_of; rw [h]⟩
  | some acc => exact Or.inr ⟨acc, rfl, by unfold balance_of; rw [h]⟩

/-- C9: balances are natural numbers in every reachable state (never negative), and
the debit performed by a successful `transfer` is guarded: the amount never exceeds
the sender's balance, so the unsigned subtraction cannot underflow and agrees with
integer subtraction. -/
theorem transfer_no_underflow (ops : List Op) (f t : String) (n : Nat) (l2 : Ledger)
    (h : transfer (run ops) f t n = Except.ok l2) :
    n ≤ balance_of (run ops) f ∧
    (0 : Int) ≤ (balance_of (run ops) f : Int) - (n : Int) ∧
    ∀ k, (0 : Int) ≤ (balance_of l2 k : Int) := by
  obtain ⟨fa, hf, hn, _, _⟩ := transfer_ok_elim (run ops) f t n l2 h
  have hbf : balance_of (run ops) f = fa.balance := by unfold balance_of; rw [hf]
  refine ⟨by rw [hbf]; exact hn, by rw [hbf]; omega, fun k => by omega⟩

/-- C9 (witness): the guarded debit on a concrete successful transfer. -/
theorem transfer_no_underflow_witness :
    3 ≤ balance_of (run [Op.mint "a" 5]) "a" ∧
    (0 : Int) ≤ (balance_of (run [Op.mint "a" 5]) "a" : Int) - (3 : Int) ∧
    ∀ k, (0 : Int) ≤ (balance_of (⟨[("a", ⟨"a", 2⟩), ("b", ⟨"b", 3⟩)], 5⟩ : Ledger) k : Int) :=
  transfer_no_underflow [Op.mint "a" 5] "a" "b" 3 ⟨[("a", ⟨"a", 2⟩), ("b", ⟨"b", 3⟩)], 5⟩
    (by decide)

/-- C10: frame property: `mint(a, m)` leaves every account other than `a` stored
unchanged and removes no account; a successful `transfer(f, t, n)` leaves every
account other than `f` and `t` stored unchanged and removes no account. -/
theorem frame_property (l : Ledger) (a : String) (m : Nat) (f t : String) (n : Nat)
    (l2 : Ledger) (k : String) :
    (k ≠ a → lookupAcc (mint l a m).accounts k = lookupAcc l.accounts k) ∧
    ((lookupAcc l.accounts k).isSome → (lookupAcc (mint l a m).accounts k).isSome) ∧
    (transfer l f t n = Except.ok l2 → k ≠ f → k ≠ t →
      lookupAcc l2.accounts k = lookupAcc l.accounts k) ∧
    (transfer l f t n = Except.ok l2 → (lookupAcc l.accounts k).isSome →
      (lookupAcc l2.accounts k).isSome) := by
  refine ⟨?_, ?_, ?_, ?_⟩
  · intro hk
    exact lookupAcc_creditAcc_ne l.accounts a m k hk
  · intro hs
    by_cases hk : k = a
    · subst hk
      exact lookupAcc_creditAcc_isSome l.accounts k m
    · show (lookupAcc (creditAcc l.accounts a m) k).isSome
      rw [lookupAcc_creditAcc_ne l.accounts a m k hk]
      exact hs
  · intro h hkf hkt
    obtain ⟨fa, hf, hn, hacc, _⟩ := transfer_ok_elim l f t n l2 h
    rw [hacc, lookupAcc_creditAcc_ne _ t n k hkt, lookupAcc_updateAcc_ne _ f _ k hkf]
  · intro h hs
    obtain ⟨fa, hf, hn, hacc, _⟩ := transfer_ok_elim l f t n l2 h
    rw [hacc]
    by_cases hkt : k = t
    · subst hkt
      exact lookupAcc_creditAcc_isSome _ k n
    · rw [lookupAcc_creditAcc_ne _ t n k hkt]
      by_cases hkf : k = f
      · subst hkf
        rw [lookupAcc_updateAcc_self, hf]
        rfl
      · rw [lookupAcc_updateAcc_ne _ f _ k hkf]
        exact hs

/-- C10 (witness): the frame conjuncts instantiated on a concrete ledger, observer
key `"c"`, a mint to `"a"` and the successful transfer of the C3 witness. -/
theorem frame_property_witness :
    (("c" : String) ≠ "a" →
      lookupAcc (mint ⟨[("a", ⟨"a", 5⟩), ("c", ⟨"c", 7⟩)], 12⟩ "a" 2).accounts "c"
        = lookupAcc (⟨[("a", ⟨"a", 5⟩), ("c", ⟨"c", 7⟩)], 12⟩ : Ledger).accounts "c") ∧
    ((lookupAcc (⟨[("a", ⟨"a", 5⟩), ("c", ⟨"c", 7⟩)], 12⟩ : Ledger).accounts "c").isSome →
      (lookupAcc (mint ⟨[("a", ⟨"a", 5⟩), ("c", ⟨"c", 7⟩)], 12⟩ "a" 2).accounts "c").isSome) ∧
    (transfer ⟨[("a", ⟨"a", 5⟩), ("c", ⟨"c", 7⟩)], 12⟩ "a" "b" 3
        = Except.ok ⟨[("a", ⟨"a", 2⟩), ("c", ⟨"c", 7⟩), ("b", ⟨"b", 3⟩)], 12⟩ →
      ("c" : String) ≠ "a" → ("c" : String) ≠ "b" →
      lookupAcc (⟨[("a", ⟨"a", 2⟩), ("c", ⟨"c", 7⟩), ("b", ⟨"b", 3⟩)], 12⟩ : Ledger).accounts "c"
        = lookupAcc (⟨[("a", ⟨"a", 5⟩), ("c", ⟨"c", 7⟩)], 12⟩ : Ledger).accounts "c") ∧
    (transfer ⟨[("a", ⟨"a", 5⟩), ("c", ⟨"c", 7⟩)], 12⟩ "a" "b" 3
        = Except.ok ⟨[("a", ⟨"a", 2⟩), ("c", ⟨"c", 7⟩), ("b", ⟨"b", 3⟩)], 12⟩ →
      (lookupAcc (⟨[("a", ⟨"a", 5⟩), ("c", ⟨"c", 7⟩)], 12⟩ : Ledger).accounts "c").isSome →
      (lookupAcc
        (⟨[("a", ⟨"a", 2⟩), ("c", ⟨"c", 7⟩), ("b", ⟨"b", 3⟩)], 12⟩ : Ledger).accounts
        "c").isSome) :=
  frame_property ⟨[("a", ⟨"a", 5⟩), ("c", ⟨"c", 7⟩)], 12⟩ "a" 2 "a" "b" 3
    ⟨[("a", ⟨"a", 2⟩), ("c", ⟨"c", 7⟩), ("b", ⟨"b", 3⟩)], 12⟩ "c"
